import Mathlib

/-!
Verification of the storage layer of a personal finance application.

The storage layer (`database.py`) keeps two SQLite tables:

* `transactions (id INTEGER PRIMARY KEY AUTOINCREMENT, date TEXT, type TEXT,
  category TEXT, description TEXT, amount REAL)`
* `budgets (id INTEGER PRIMARY KEY AUTOINCREMENT, category TEXT UNIQUE, amount REAL)`

We embed the store as a record holding the two tables as lists of rows
together with the `AUTOINCREMENT` counters (SQLite with the `AUTOINCREMENT`
keyword assigns strictly increasing row ids, never reusing one).  Monetary
amounts (SQLite `REAL`) are idealised as rationals.  Each method of the
`Database` class becomes a Lean function on this record.
-/

namespace PersonalFinance

/-- A row of the `transactions` table. -/
structure Txn where
  id : Nat
  date : String
  type : String
  category : String
  description : String
  amount : ℚ
deriving DecidableEq, Repr

/-- A row of the `budgets` table. -/
structure Budget where
  id : Nat
  category : String
  amount : ℚ
deriving DecidableEq, Repr

/-- The persistent store: the two tables plus the `AUTOINCREMENT` counters. -/
structure Database where
  transactions : List Txn
  budgets : List Budget
  nextTransId : Nat
  nextBudgetId : Nat
deriving DecidableEq, Repr

/-- The store right after `create_tables` on a fresh file: both tables empty,
`AUTOINCREMENT` counters at 1 (SQLite assigns 1 to the first row). -/
def emptyDB : Database := ⟨[], [], 1, 1⟩

/-- `Database.add_transaction`: `INSERT INTO transactions (date, type, category,
description, amount) VALUES (?,?,?,?,?)`.  A fresh id is assigned by
`AUTOINCREMENT`; no validation of any argument is performed. -/
def add_transaction (date type_ category description : String) (amount : ℚ)
    (db : Database) : Database :=
  { db with
    transactions := db.transactions ++
      [⟨db.nextTransId, date, type_, category, description, amount⟩]
    nextTransId := db.nextTransId + 1 }

/-- SQLite `SUM(amount)` over a set of rows: `NULL` (here `none`) when there
are no rows, otherwise the sum. -/
def sqlSum : List ℚ → Option ℚ
  | [] => none
  | l => some l.sum

/-- Python `x or 0.0` applied to a fetched `SUM`: `None` and `0.0` are falsy,
so both map to `0.0`; any other number is returned unchanged. -/
def pyOrZero : Option ℚ → ℚ
  | none => 0
  | some x => if x = 0 then 0 else x

/-- `Database.get_summary`: total income (`SUM` over rows with
`type='Income'`, coalesced with `or 0.0`), total expense likewise, and the
net balance `total_income - total_expense`. -/
def get_summary (db : Database) : ℚ × ℚ × ℚ :=
  let total_income :=
    pyOrZero (sqlSum ((db.transactions.filter fun r => r.type = "Income").map Txn.amount))
  let total_expense :=
    pyOrZero (sqlSum ((db.transactions.filter fun r => r.type = "Expense").map Txn.amount))
  (total_income, total_expense, total_income - total_expense)

/-- The order `ORDER BY date DESC, id DESC` of `get_transactions`:
`a` comes no later than `b` when `a`'s date is larger, or the dates are
equal and `a`'s id is at least `b`'s. -/
def transOrder (a b : Txn) : Prop :=
  b.date < a.date ∨ (a.date = b.date ∧ b.id ≤ a.id)

instance : DecidableRel transOrder := fun a b => by
  unfold transOrder; infer_instance

instance : IsTotal Txn transOrder where
  total a b := by
    unfold transOrder
    rcases lt_trichotomy a.date b.date with h | h | h
    · exact Or.inr (Or.inl h)
    · rcases Nat.le_total b.id a.id with h2 | h2
      · exact Or.inl (Or.inr ⟨h, h2⟩)
      · exact Or.inr (Or.inr ⟨h.symm, h2⟩)
    · exact Or.inl (Or.inl h)

instance : IsTrans Txn transOrder where
  trans a b c hab hbc := by
    unfold transOrder at *
    rcases hab with h1 | ⟨h1, h1'⟩ <;> rcases hbc with h2 | ⟨h2, h2'⟩
    · exact Or.inl (h2.trans h1)
    · exact Or.inl (h2 ▸ h1)
    · exact Or.inl (h2.trans_eq h1.symm)
    · exact Or.inr ⟨h1.trans h2, h2'.trans h1'⟩

/-- `Database.get_transactions`: `SELECT ... FROM transactions ORDER BY date
DESC, id DESC`. -/
def get_transactions (db : Database) : List Txn :=
  List.insertionSort transOrder db.transactions

/-- `Database.delete_transaction`: `DELETE FROM transactions WHERE id=?`. -/
def delete_transaction (trans_id : Nat) (db : Database) : Database :=
  { db with transactions := db.transactions.filter fun r => r.id ≠ trans_id }

/-- `Database.add_budget`: `INSERT OR REPLACE INTO budgets (category, amount)
VALUES (?, ?)`.  On a `UNIQUE` conflict with an existing category row SQLite
deletes that row and inserts the new one; the inserted row always receives a
fresh `AUTOINCREMENT` id. -/
def add_budget (category : String) (amount : ℚ) (db : Database) : Database :=
  { db with
    budgets := (db.budgets.filter fun b => b.category ≠ category) ++
      [⟨db.nextBudgetId, category, amount⟩]
    nextBudgetId := db.nextBudgetId + 1 }

/-- `Database.delete_budget`: `DELETE FROM budgets WHERE id=?`. -/
def delete_budget (budget_id : Nat) (db : Database) : Database :=
  { db with budgets := db.budgets.filter fun b => b.id ≠ budget_id }

/-- The order `ORDER BY SUM(amount) DESC` of `get_expenses_by_category`. -/
def byAmountDesc (a b : String × ℚ) : Prop := b.2 ≤ a.2

instance : DecidableRel byAmountDesc := fun a b => by
  unfold byAmountDesc; infer_instance

instance : IsTotal (String × ℚ) byAmountDesc where
  total a b := (le_total b.2 a.2).imp id id

instance : IsTrans (String × ℚ) byAmountDesc where
  trans _ _ _ hab hbc := le_trans hbc hab

/-- `Database.get_expenses_by_category`: `SELECT category, SUM(amount) FROM
transactions WHERE type='Expense' GROUP BY category ORDER BY SUM(amount)
DESC`. -/
def get_expenses_by_category (db : Database) : List (String × ℚ) :=
  let exps := db.transactions.filter fun r => r.type = "Expense"
  let rows := ((exps.map Txn.category).dedup).map fun c =>
    (c, ((exps.filter fun r => r.category = c).map Txn.amount).sum)
  List.insertionSort byAmountDesc rows

/-- The grouping key of `get_monthly_summary`: `substr(date, 1, 7)`, the
first seven characters of the date text. -/
def monthKey (r : Txn) : String := r.date.take 7

/-- `Database.get_monthly_summary`: group all transactions by
`substr(date,1,7)`, compute `SUM(CASE WHEN type='Income' THEN amount ELSE 0
END)` and the analogous expense sum per group, `ORDER BY month` ascending. -/
def get_monthly_summary (db : Database) : List (String × ℚ × ℚ) :=
  let months := List.insertionSort (· ≤ ·) ((db.transactions.map monthKey).dedup)
  months.map fun m =>
    (m,
     ((db.transactions.filter fun r => monthKey r = m).map fun r =>
        if r.type = "Income" then r.amount else 0).sum,
     ((db.transactions.filter fun r => monthKey r = m).map fun r =>
        if r.type = "Expense" then r.amount else 0).sum)

/-- States reachable from the fresh store through the public operations with
arbitrary arguments. -/
inductive Reachable : Database → Prop where
  | empty : Reachable emptyDB
  | add_txn (date type_ category description : String) (amount : ℚ) {db : Database} :
      Reachable db → Reachable (add_transaction date type_ category description amount db)
  | del_txn (i : Nat) {db : Database} :
      Reachable db → Reachable (delete_transaction i db)
  | add_bud (category : String) (amount : ℚ) {db : Database} :
      Reachable db → Reachable (add_budget category amount db)
  | del_bud (i : Nat) {db : Database} :
      Reachable db → Reachable (delete_budget i db)

/-- States reachable from the fresh store when every `add_transaction` call
passes a positive amount (the validation the presentation layer performs). -/
inductive ReachablePos : Database → Prop where
  | empty : ReachablePos emptyDB
  | add_txn (date type_ category description : String) (amount : ℚ) {db : Database} :
      0 < amount → ReachablePos db →
      ReachablePos (add_transaction date type_ category description amount db)
  | del_txn (i : Nat) {db : Database} :
      ReachablePos db → ReachablePos (delete_transaction i db)
  | add_bud (category : String) (amount : ℚ) {db : Database} :
      ReachablePos db → ReachablePos (add_budget category amount db)
  | del_bud (i : Nat) {db : Database} :
      ReachablePos db → ReachablePos (delete_budget i db)

/-- Structural invariant of the store maintained by SQLite: row ids are below
the `AUTOINCREMENT` counters and are pairwise distinct (`PRIMARY KEY`), and
budget categories are pairwise distinct (`UNIQUE`). -/
def Inv (db : Database) : Prop :=
  (∀ r ∈ db.transactions, r.id < db.nextTransId) ∧
  (db.transactions.map Txn.id).Nodup ∧
  (∀ b ∈ db.budgets, b.id < db.nextBudgetId) ∧
  (db.budgets.map Budget.id).Nodup ∧
  (db.budgets.map Budget.category).Nodup

/-- A state reached with an unvalidated non-positive amount. -/
def negAmountState : Database :=
  add_transaction "2024-01-01" "Expense" "X" "" (-5) emptyDB

/-- A state reached with only validated, positive amounts. -/
def posAmountState : Database :=
  add_transaction "2024-03-01" "Income" "Salary" "" 2000 emptyDB

/-- A state reached by storing an `Expense` row with the unvalidated
amount 0. -/
def zeroAmountState : Database :=
  add_transaction "2024-01-01" "Expense" "X" "" 0 emptyDB

/-- A state holding one validated expense of 150.50 for `Groceries`. -/
def groceriesState : Database :=
  add_transaction "2024-03-05" "Expense" "Groceries" "" (301/2) emptyDB

lemma pyOrZero_sqlSum (l : List ℚ) : pyOrZero (sqlSum l) = l.sum := by
  cases l with
  | nil => simp [sqlSum, pyOrZero]
  | cons a l =>
    simp only [sqlSum, pyOrZero]
    split <;> simp_all

/-- Claim C1: for every store state, `get_summary` returns the triple
`(total_income, total_expense, net_balance)` where `total_income` is the sum
of amounts of transactions of type `Income`, `total_expense` is the sum of
amounts of transactions of type `Expense`, and the net balance is their
difference; in particular a type with no transactions contributes `0`, and
the empty store yields `(0, 0, 0)`. -/
theorem get_summary_spec (db : Database) :
    get_summary db =
      (((db.transactions.filter fun r => r.type = "Income").map Txn.amount).sum,
       ((db.transactions.filter fun r => r.type = "Expense").map Txn.amount).sum,
       ((db.transactions.filter fun r => r.type = "Income").map Txn.amount).sum -
         ((db.transactions.filter fun r => r.type = "Expense").map Txn.amount).sum) ∧
    get_summary emptyDB = (0, 0, 0) := by
  constructor
  · simp only [get_summary, pyOrZero_sqlSum]
  · simp [get_summary, emptyDB, sqlSum, pyOrZero]

lemma nodup_map_filter {α β : Type} (f : α → β) (p : α → Bool) {l : List α}
    (h : (l.map f).Nodup) : ((l.filter p).map f).Nodup :=
  h.sublist ((l.filter_sublist).map f)

lemma inv_empty : Inv emptyDB := by
  simp [Inv, emptyDB]

lemma inv_add_transaction (date type_ category description : String) (amount : ℚ)
    {db : Database} (h : Inv db) :
    Inv (add_transaction date type_ category description amount db) := by
  obtain ⟨h1, h2, h3, h4, h5⟩ := h
  unfold Inv add_transaction
  refine ⟨?_, ?_, h3, h4, h5⟩
  · intro r hr
    rcases List.mem_append.mp hr with hr | hr
    · exact (h1 r hr).trans (Nat.lt_succ_self _)
    · rcases List.mem_singleton.mp hr with rfl
      exact Nat.lt_succ_self _
  · rw [List.map_append]
    simp only [List.map_cons, List.map_nil]
    rw [List.nodup_append]
    refine ⟨h2, List.nodup_singleton _, ?_⟩
    intro x hx hx'
    rcases List.mem_singleton.mp hx' with rfl
    rcases List.mem_map.mp hx with ⟨r, hr, hrid⟩
    exact absurd hrid (Nat.ne_of_lt (h1 r hr))

lemma inv_delete_transaction (i : Nat) {db : Database} (h : Inv db) :
    Inv (delete_transaction i db) := by
  obtain ⟨h1, h2, h3, h4, h5⟩ := h
  exact ⟨fun r hr => h1 r (List.mem_of_mem_filter hr), nodup_map_filter _ _ h2, h3, h4, h5⟩

lemma inv_add_budget (category : String) (amount : ℚ) {db : Database} (h : Inv db) :
    Inv (add_budget category amount db) := by
  obtain ⟨h1, h2, h3, h4, h5⟩ := h
  unfold Inv add_budget
  refine ⟨h1, h2, ?_, ?_, ?_⟩
  · intro b hb
    rcases List.mem_append.mp hb with hb | hb
    · exact (h3 b (List.mem_of_mem_filter hb)).trans (Nat.lt_succ_self _)
    · rcases List.mem_singleton.mp hb with rfl
      exact Nat.lt_succ_self _
  · rw [List.map_append]
    simp only [List.map_cons, List.map_nil]
    rw [List.nodup_append]
    refine ⟨nodup_map_filter _ _ h4, List.nodup_singleton _, ?_⟩
    intro x hx hx'
    rcases List.mem_singleton.mp hx' with rfl
    rcases List.mem_map.mp hx with ⟨b, hb, hbid⟩
    exact absurd hbid (Nat.ne_of_lt (h3 b (List.mem_of_mem_filter hb)))
  · rw [List.map_append]
    simp only [List.map_cons, List.map_nil]
    rw [List.nodup_append]
    refine ⟨nodup_map_filter _ _ h5, List.nodup_singleton _, ?_⟩
    intro x hx hx'
    rcases List.mem_singleton.mp hx' with rfl
    rcases List.mem_map.mp hx with ⟨b, hb, hbcat⟩
    have := List.of_mem_filter hb
    simp only [decide_eq_true_eq] at this
    exact this hbcat

lemma inv_delete_budget (i : Nat) {db : Database} (h : Inv db) :
    Inv (delete_budget i db) := by
  obtain ⟨h1, h2, h3, h4, h5⟩ := h
  exact ⟨h1, h2, fun b hb => h3 b (List.mem_of_mem_filter hb),
    nodup_map_filter _ _ h4, nodup_map_filter _ _ h5⟩

/-- Every reachable store state satisfies the structural invariant that
SQLite maintains for the two tables. -/
lemma reachable_inv {db : Database} (h : Reachable db) : Inv db := by
  induction h with
  | empty => exact inv_empty
  | add_txn date type_ category description amount _ ih =>
      exact inv_add_transaction date type_ category description amount ih
  | del_txn i _ ih => exact inv_delete_transaction i ih
  | add_bud category amount _ ih => exact inv_add_budget category amount ih
  | del_bud i _ ih => exact inv_delete_budget i ih

/-- Claim C3: for every store state, `get_transactions` returns all stored
transaction rows (a permutation of the table), ordered by date descending
with ties on equal dates broken by id descending, and the empty store yields
the empty list. -/
theorem get_transactions_spec (db : Database) :
    List.Perm (get_transactions db) db.transactions ∧
    List.Sorted transOrder (get_transactions db) ∧
    get_transactions emptyDB = [] :=
  ⟨List.perm_insertionSort transOrder db.transactions,
   List.sorted_insertionSort transOrder db.transactions, rfl⟩

/-- Claim C7: adding a transaction and then deleting it through the freshly
assigned identifier restores the prior list of transactions exactly. -/
theorem add_then_delete_restores (db : Database) (h : Reachable db)
    (date type_ category description : String) (amount : ℚ) :
    get_transactions
        (delete_transaction db.nextTransId
          (add_transaction date type_ category description amount db)) =
      get_transactions db := by
  have h1 := (reachable_inv h).1
  unfold get_transactions delete_transaction add_transaction
  simp only
  congr 1
  rw [List.filter_append]
  have hall : db.transactions.filter (fun r => r.id ≠ db.nextTransId) = db.transactions := by
    rw [List.filter_eq_self]
    intro r hr
    simpa using Nat.ne_of_lt (h1 r hr)
  have hnew :
      List.filter (fun r => r.id ≠ db.nextTransId)
        ([⟨db.nextTransId, date, type_, category, description, amount⟩] : List Txn) = [] := by
    simp
  rw [hall, hnew, List.append_nil]

/-- Witness for claim C7 at a concrete state. -/
theorem add_then_delete_restores_witness :
    Reachable emptyDB ∧
    get_transactions
        (delete_transaction emptyDB.nextTransId
          (add_transaction "2024-03-01" "Income" "Salary" "" 2000 emptyDB)) =
      get_transactions emptyDB :=
  ⟨Reachable.empty,
   add_then_delete_restores emptyDB Reachable.empty "2024-03-01" "Income" "Salary" "" 2000⟩

lemma filter_key_ne_eq_erase {α : Type} [DecidableEq α] (key : α → Nat) :
    ∀ l : List α, (l.map key).Nodup → ∀ r ∈ l,
      (l.filter fun x => key x ≠ key r) = l.erase r := by
  intro l
  induction l with
  | nil => intro _ r hr; cases hr
  | cons hd tl ih =>
    intro hnd r hr
    have hnd' : (tl.map key).Nodup := (List.nodup_cons.mp hnd).2
    have hhd : key hd ∉ tl.map key := (List.nodup_cons.mp hnd).1
    rcases List.mem_cons.mp hr with rfl | hrtl
    · rw [List.erase_cons_head, List.filter_cons_of_neg (by simp)]
      rw [List.filter_eq_self]
      intro x hx
      simp only [decide_eq_true_eq]
      intro he
      exact hhd (he ▸ List.mem_map_of_mem key hx)
    · have hne : key hd ≠ key r := by
        intro he
        exact hhd (he ▸ List.mem_map_of_mem key hrtl)
      have hner : hd ≠ r := fun he => hne (he ▸ rfl)
      rw [List.filter_cons_of_pos (by simpa using hne)]
      rw [List.erase_cons_tail (by simpa using hner), ih hnd' r hrtl]

/-- Claim C8: deleting by an identifier absent from the corresponding table
is a silent no-op that leaves the store entirely unchanged, for transactions
and for budgets alike; deleting by a present identifier removes exactly that
record and leaves every other record (and the other table) unchanged. -/
theorem delete_spec (db : Database) (i : Nat) (h : Reachable db) :
    ((∀ r ∈ db.transactions, r.id ≠ i) → delete_transaction i db = db) ∧
    ((∀ b ∈ db.budgets, b.id ≠ i) → delete_budget i db = db) ∧
    (∀ r ∈ db.transactions, r.id = i →
      (delete_transaction i db).transactions = db.transactions.erase r ∧
      (delete_transaction i db).budgets = db.budgets) ∧
    (∀ b ∈ db.budgets, b.id = i →
      (delete_budget i db).budgets = db.budgets.erase b ∧
      (delete_budget i db).transactions = db.transactions) := by
  obtain ⟨h1, h2, h3, h4, h5⟩ := reachable_inv h
  refine ⟨?_, ?_, ?_, ?_⟩
  · intro habs
    unfold delete_transaction
    have : db.transactions.filter (fun r => r.id ≠ i) = db.transactions := by
      rw [List.filter_eq_self]
      intro r hr
      simpa using habs r hr
    rw [this]
  · intro habs
    unfold delete_budget
    have : db.budgets.filter (fun b => b.id ≠ i) = db.budgets := by
      rw [List.filter_eq_self]
      intro b hb
      simpa using habs b hb
    rw [this]
  · intro r hr hri
    subst hri
    exact ⟨filter_key_ne_eq_erase Txn.id db.transactions h2 r hr, rfl⟩
  · intro b hb hbi
    subst hbi
    exact ⟨filter_key_ne_eq_erase Budget.id db.budgets h4 b hb, rfl⟩

/-- Witness for claim C8: deleting the absent identifier 9999 from a
one-transaction store changes nothing. -/
theorem delete_spec_witness :
    Reachable (add_transaction "2024-03-01" "Income" "Salary" "" 2000 emptyDB) ∧
    delete_transaction 9999 (add_transaction "2024-03-01" "Income" "Salary" "" 2000 emptyDB) =
      add_transaction "2024-03-01" "Income" "Salary" "" 2000 emptyDB := by
  have hre : Reachable (add_transaction "2024-03-01" "Income" "Salary" "" 2000 emptyDB) :=
    Reachable.add_txn _ _ _ _ _ Reachable.empty
  refine ⟨hre, (delete_spec _ 9999 hre).1 ?_⟩
  intro r hr
  simp only [add_transaction, emptyDB, List.nil_append, List.mem_singleton] at hr
  subst hr
  decide

/-- Claim C2: `add_budget` has upsert semantics — after `add_budget c a` the
budget categories are still pairwise distinct, exactly one row (the fresh one
with amount `a`) has category `c` under case-sensitive exact match, rows of
all other categories are untouched, and the `Food` example leaves exactly one
`Food` row with amount 150. -/
theorem add_budget_upsert (db : Database) (h : Reachable db) (c : String) (a : ℚ) :
    ((add_budget c a db).budgets.map Budget.category).Nodup ∧
    ((add_budget c a db).budgets.filter fun b => b.category = c) =
      [⟨db.nextBudgetId, c, a⟩] ∧
    ((add_budget c a db).budgets.filter fun b => b.category ≠ c) =
      (db.budgets.filter fun b => b.category ≠ c) ∧
    (add_budget "Food" 150 (add_budget "Food" 100 emptyDB)).budgets =
      [⟨2, "Food", 150⟩] := by
  refine ⟨(reachable_inv (Reachable.add_bud c a h)).2.2.2.2, ?_, ?_, ?_⟩
  · unfold add_budget
    rw [List.filter_append]
    have e1 : (db.budgets.filter fun b => b.category ≠ c).filter
        (fun b => b.category = c) = [] := by
      rw [List.filter_eq_nil_iff]
      intro b hb
      have := List.of_mem_filter hb
      simpa using this
    have e2 : List.filter (fun b => b.category = c)
        ([⟨db.nextBudgetId, c, a⟩] : List Budget) = [⟨db.nextBudgetId, c, a⟩] := by
      simp
    rw [e1, e2, List.nil_append]
  · unfold add_budget
    rw [List.filter_append]
    have e3 : (db.budgets.filter fun b => b.category ≠ c).filter
        (fun b => b.category ≠ c) = db.budgets.filter fun b => b.category ≠ c := by
      rw [List.filter_eq_self]
      intro b hb
      simpa using List.of_mem_filter hb
    have e4 : List.filter (fun b => b.category ≠ c)
        ([⟨db.nextBudgetId, c, a⟩] : List Budget) = [] := by
      simp
    rw [e3, e4, List.append_nil]
  · rfl

/-- Witness for claim C2 at the empty store. -/
theorem add_budget_upsert_witness :
    Reachable emptyDB ∧
    ((add_budget "Food" 100 emptyDB).budgets.filter fun b => b.category = "Food") =
      [⟨1, "Food", 100⟩] :=
  ⟨Reachable.empty, (add_budget_upsert emptyDB Reachable.empty "Food" 100).2.1⟩

/-- Claim C10: replacing an existing budget through `add_budget` assigns the
row a fresh identifier strictly larger than the replaced one, the old
identifier no longer refers to any budget row, and a subsequent
`delete_budget` with the old identifier is a silent no-op that leaves the
updated budget in place. -/
theorem add_budget_fresh_id (db : Database) (h : Reachable db) (c : String) (a : ℚ)
    (b : Budget) (hb : b ∈ db.budgets) (hc : b.category = c) :
    (⟨db.nextBudgetId, c, a⟩ : Budget) ∈ (add_budget c a db).budgets ∧
    b.id < db.nextBudgetId ∧
    (∀ b' ∈ (add_budget c a db).budgets, b'.id ≠ b.id) ∧
    delete_budget b.id (add_budget c a db) = add_budget c a db := by
  obtain ⟨_, _, h3, h4, _⟩ := reachable_inv h
  have hlt : b.id < db.nextBudgetId := h3 b hb
  have hmem : (⟨db.nextBudgetId, c, a⟩ : Budget) ∈ (add_budget c a db).budgets := by
    unfold add_budget
    exact List.mem_append_right _ (List.mem_singleton.mpr rfl)
  have hnone : ∀ b' ∈ (add_budget c a db).budgets, b'.id ≠ b.id := by
    intro b' hb'
    unfold add_budget at hb'
    rcases List.mem_append.mp hb' with hb' | hb'
    · have hb'mem := List.mem_of_mem_filter hb'
      have hb'cat := List.of_mem_filter hb'
      simp only [decide_eq_true_eq] at hb'cat
      intro he
      have hbb : b' = b := List.inj_on_of_nodup_map h4 hb'mem hb he
      exact hb'cat (hbb ▸ hc)
    · rcases List.mem_singleton.mp hb' with rfl
      exact (Nat.ne_of_lt hlt).symm
  refine ⟨hmem, hlt, hnone, ?_⟩
  unfold delete_budget
  have hfix : (add_budget c a db).budgets.filter (fun b' => b'.id ≠ b.id) =
      (add_budget c a db).budgets := by
    rw [List.filter_eq_self]
    intro b' hb'
    simpa using hnone b' hb'
  rw [hfix]

/-- Witness for claim C10: updating the `Food` budget orphans the old id 1,
and deleting id 1 afterwards changes nothing. -/
theorem add_budget_fresh_id_witness :
    Reachable (add_budget "Food" 100 emptyDB) ∧
    (⟨1, "Food", 100⟩ : Budget) ∈ (add_budget "Food" 100 emptyDB).budgets ∧
    delete_budget 1 (add_budget "Food" 150 (add_budget "Food" 100 emptyDB)) =
      add_budget "Food" 150 (add_budget "Food" 100 emptyDB) := by
  have hre : Reachable (add_budget "Food" 100 emptyDB) :=
    Reachable.add_bud _ _ Reachable.empty
  have hb : (⟨1, "Food", 100⟩ : Budget) ∈ (add_budget "Food" 100 emptyDB).budgets := by
    simp [add_budget, emptyDB]
  exact ⟨hre, hb,
    (add_budget_fresh_id (add_budget "Food" 100 emptyDB) hre "Food" 150
      ⟨1, "Food", 100⟩ hb rfl).2.2.2⟩

/-- Counterexample to claim C9 as stated: the store performs no validation,
so the state reached by a single `add_transaction` call with amount `-5` is
reachable through the public operations yet stores a transaction whose
amount is not positive. -/
theorem amount_invariant_counterexample :
    Reachable negAmountState ∧
    negAmountState.transactions = [⟨1, "2024-01-01", "Expense", "X", "", -5⟩] ∧
    ¬ (0 : ℚ) < -5 :=
  ⟨Reachable.add_txn "2024-01-01" "Expense" "X" "" (-5) Reachable.empty, rfl,
   by norm_num⟩

/-- Claim C9 (amended): in every state reachable from the empty store via the
public operations in which each `add_transaction` call passes a positive
amount, every stored transaction record has a positive amount; the layer
itself never inspects the sign, so direction is carried by the `type` field
alone. -/
theorem amount_positive_of_validated (db : Database) (h : ReachablePos db) :
    ∀ r ∈ db.transactions, 0 < r.amount := by
  induction h with
  | empty => intro r hr; cases hr
  | add_txn date type_ category description amount hpos _ ih =>
    intro r hr
    unfold add_transaction at hr
    rcases List.mem_append.mp hr with hr | hr
    · exact ih r hr
    · rcases List.mem_singleton.mp hr with rfl
      exact hpos
  | del_txn i _ ih =>
    intro r hr
    exact ih r (List.mem_of_mem_filter hr)
  | add_bud category amount _ ih => exact ih
  | del_bud i _ ih => exact ih

/-- Witness for the amended claim C9 at a concrete validated state. -/
theorem amount_positive_of_validated_witness :
    ReachablePos posAmountState ∧ (0 : ℚ) < 2000 := by
  have hre : ReachablePos posAmountState :=
    ReachablePos.add_txn "2024-03-01" "Income" "Salary" "" 2000 (by norm_num)
      ReachablePos.empty
  refine ⟨hre, ?_⟩
  have hmem : (⟨1, "2024-03-01", "Income", "Salary", "", 2000⟩ : Txn) ∈
      posAmountState.transactions := by
    simp [posAmountState, add_transaction, emptyDB]
  exact amount_positive_of_validated posAmountState hre _ hmem

/-- Counterexample to claim C5 as stated: the amounts are not validated, so
the store can reach a state whose `get_expenses_by_category` result contains
an entry with total 0. -/
theorem expenses_zero_total_counterexample :
    Reachable zeroAmountState ∧
    get_expenses_by_category zeroAmountState = [("X", 0)] := by
  refine ⟨Reachable.add_txn "2024-01-01" "Expense" "X" "" 0 Reachable.empty, ?_⟩
  simp [get_expenses_by_category, zeroAmountState, add_transaction, emptyDB]

/-- Claim C5 (amended): every category with no `Expense`-kind transactions is
absent from `get_expenses_by_category`; and when every stored amount is
positive — the validation the presentation layer performs — every returned
entry has a positive, hence non-zero, total.  With unvalidated amounts a
zero-total entry can occur. -/
theorem expenses_by_category_spec (db : Database) :
    (∀ c : String,
      (db.transactions.filter fun r => r.type = "Expense" ∧ r.category = c) = [] →
      ∀ e ∈ get_expenses_by_category db, e.1 ≠ c) ∧
    ((∀ r ∈ db.transactions, 0 < r.amount) →
      ∀ e ∈ get_expenses_by_category db, 0 < e.2) := by
  constructor
  · intro c hc e he
    simp only [get_expenses_by_category] at he
    rw [(List.perm_insertionSort _ _).mem_iff] at he
    rcases List.mem_map.mp he with ⟨c', hc', rfl⟩
    intro hec
    simp only at hec
    subst hec
    rcases List.mem_map.mp (List.mem_dedup.mp hc') with ⟨r, hr, hrc⟩
    have hrt := List.of_mem_filter hr
    simp only [decide_eq_true_eq] at hrt
    have hrmem : r ∈ db.transactions.filter
        fun r => r.type = "Expense" ∧ r.category = c' := by
      rw [List.mem_filter]
      exact ⟨List.mem_of_mem_filter hr, by simp [hrt, hrc]⟩
    rw [hc] at hrmem
    cases hrmem
  · intro hpos e he
    simp only [get_expenses_by_category] at he
    rw [(List.perm_insertionSort _ _).mem_iff] at he
    rcases List.mem_map.mp he with ⟨c', hc', rfl⟩
    rcases List.mem_map.mp (List.mem_dedup.mp hc') with ⟨r, hr, hrc⟩
    apply List.sum_pos
    · intro x hx
      rcases List.mem_map.mp hx with ⟨r', hr', rfl⟩
      exact hpos r' (List.mem_of_mem_filter (List.mem_of_mem_filter hr'))
    · have : r ∈ (db.transactions.filter fun r => r.type = "Expense").filter
          fun r2 => r2.category = c' := by
        rw [List.mem_filter]
        exact ⟨hr, by simp [hrc]⟩
      intro hnil
      rw [List.map_eq_nil_iff] at hnil
      rw [hnil] at this
      cases this

/-- Witness for the amended claim C5 at a concrete validated state. -/
theorem expenses_by_category_spec_witness :
    (∀ r ∈ groceriesState.transactions, 0 < r.amount) ∧ (0 : ℚ) < 301/2 := by
  have hpos : ∀ r ∈ groceriesState.transactions, 0 < r.amount := by
    intro r hr
    simp only [groceriesState, add_transaction, emptyDB, List.nil_append,
      List.mem_singleton] at hr
    subst hr
    norm_num
  have hmem : ("Groceries", (301/2 : ℚ)) ∈ get_expenses_by_category groceriesState := by
    simp [get_expenses_by_category, groceriesState, add_transaction, emptyDB]
  exact ⟨hpos, (expenses_by_category_spec groceriesState).2 hpos _ hmem⟩

lemma sum_map_filter_key {α : Type} (key : α → String) (f : α → ℚ) :
    ∀ (cs : List String) (l : List α), cs.Nodup → (∀ x ∈ l, key x ∈ cs) →
      (cs.map fun c => ((l.filter fun x => key x = c).map f).sum).sum =
        (l.map f).sum := by
  intro cs
  induction cs with
  | nil =>
    intro l _ hcov
    have hl : l = [] :=
      List.eq_nil_iff_forall_not_mem.mpr fun x hx => (List.not_mem_nil _) (hcov x hx)
    subst hl
    simp
  | cons c cs ih =>
    intro l hnd hcov
    have hcnotin : c ∉ cs := (List.nodup_cons.mp hnd).1
    have hnd' : cs.Nodup := (List.nodup_cons.mp hnd).2
    have hsplit :
        ((l.filter fun x => key x = c).map f).sum +
          ((l.filter fun x => key x ≠ c).map f).sum = (l.map f).sum := by
      have hperm := (List.filter_append_perm (fun x => decide (key x = c)) l).map f
      have hsum := hperm.sum_eq
      rw [List.map_append, List.sum_append] at hsum
      have hfeq : (fun x => !decide (key x = c)) = fun x => decide (key x ≠ c) := by
        funext x
        simp [decide_not]
      rw [hfeq] at hsum
      exact hsum
    have hstep : ∀ c' ∈ cs,
        (l.filter fun x => key x = c') =
          ((l.filter fun x => key x ≠ c).filter fun x => key x = c') := by
      intro c' hc'
      have hcc : c' ≠ c := fun he => hcnotin (he ▸ hc')
      rw [List.filter_filter]
      apply List.filter_congr
      intro x _
      by_cases h : key x = c'
      · simp [h, hcc]
      · simp [h]
    have hmapeq :
        (cs.map fun c' => ((l.filter fun x => key x = c').map f).sum) =
          (cs.map fun c' =>
            (((l.filter fun x => key x ≠ c).filter fun x => key x = c').map f).sum) := by
      apply List.map_congr_left
      intro c' hc'
      rw [hstep c' hc']
    have hcov' : ∀ x ∈ (l.filter fun x => key x ≠ c), key x ∈ cs := by
      intro x hx
      have hxl := List.mem_of_mem_filter hx
      have hxne := List.of_mem_filter hx
      simp only [decide_eq_true_eq] at hxne
      rcases List.mem_cons.mp (hcov x hxl) with h | h
      · exact absurd h hxne
      · exact h
    rw [List.map_cons, List.sum_cons, hmapeq, ih (l.filter fun x => key x ≠ c) hnd' hcov',
      hsplit]

/-- Claim C6: the per-category totals of `get_expenses_by_category` sum to
exactly the `total_expense` component of `get_summary`, and the returned
entries are ordered by summed amount descending. -/
theorem expenses_by_category_total (db : Database) :
    ((get_expenses_by_category db).map Prod.snd).sum = (get_summary db).2.1 ∧
    List.Sorted byAmountDesc (get_expenses_by_category db) := by
  constructor
  · simp only [get_expenses_by_category, get_summary]
    rw [((List.perm_insertionSort byAmountDesc _).map Prod.snd).sum_eq, List.map_map]
    have hcomp :
        (Prod.snd ∘ fun c =>
          (c, ((((db.transactions.filter fun r => r.type = "Expense").filter
            fun r => r.category = c)).map Txn.amount).sum)) =
          fun c => ((((db.transactions.filter fun r => r.type = "Expense").filter
            fun r => r.category = c)).map Txn.amount).sum := rfl
    rw [hcomp, pyOrZero_sqlSum]
    exact sum_map_filter_key Txn.category Txn.amount _ _
      (List.nodup_dedup _)
      (fun x hx => List.mem_dedup.mpr (List.mem_map_of_mem Txn.category hx))
  · exact List.sorted_insertionSort byAmountDesc _

lemma sum_map_ite {α : Type} (p : α → Prop) [DecidablePred p] (f : α → ℚ)
    (l : List α) :
    (l.map fun x => if p x then f x else 0).sum = ((l.filter fun x => p x).map f).sum := by
  induction l with
  | nil => rfl
  | cons a l ih =>
    by_cases h : p a <;> simp [List.filter_cons, h, ih]

lemma filter_filter_prop {α : Type} (p q : α → Prop) [DecidablePred p]
    [DecidablePred q] (l : List α) :
    ((l.filter fun x => p x).filter fun x => q x) = l.filter fun x => p x ∧ q x := by
  induction l with
  | nil => rfl
  | cons a l ih =>
    by_cases hp : p a <;> by_cases hq : q a <;> simp [List.filter_cons, hp, hq, ih]

/-- Claim C4: `get_monthly_summary` buckets transactions by the first seven
characters of the date string, with the group keys strictly ascending; every
transaction falls in the bucket of its month key; each returned entry holds
the conditional income and expense sums of its group (rows of the other type
contribute 0); and the dates `2024-01-15` and `2024-01-28` share the
`2024-01` bucket. -/
theorem get_monthly_summary_spec (db : Database) :
    List.Pairwise (fun a b => a.1 < b.1) (get_monthly_summary db) ∧
    (∀ r ∈ db.transactions, ∃ e ∈ get_monthly_summary db, e.1 = monthKey r) ∧
    (∀ e ∈ get_monthly_summary db,
      (∃ r ∈ db.transactions, monthKey r = e.1) ∧
      e.2.1 = ((db.transactions.filter fun r => monthKey r = e.1 ∧
        r.type = "Income").map Txn.amount).sum ∧
      e.2.2 = ((db.transactions.filter fun r => monthKey r = e.1 ∧
        r.type = "Expense").map Txn.amount).sum) ∧
    monthKey ⟨0, "2024-01-15", "Income", "Salary", "", 1⟩ =
      monthKey ⟨1, "2024-01-28", "Expense", "Groceries", "", 1⟩ := by
  refine ⟨?_, ?_, ?_, ?_⟩
  · simp only [get_monthly_summary]
    rw [List.pairwise_map]
    have hsort : List.Sorted (· ≤ ·)
        (List.insertionSort (· ≤ ·) ((db.transactions.map monthKey).dedup)) :=
      List.sorted_insertionSort _ _
    have hnd : (List.insertionSort (· ≤ ·) ((db.transactions.map monthKey).dedup)).Nodup :=
      ((List.perm_insertionSort _ _).nodup_iff).mpr (List.nodup_dedup _)
    exact (hsort.and hnd).imp fun h => lt_of_le_of_ne h.1 h.2
  · intro r hr
    have hmem : monthKey r ∈ List.insertionSort (· ≤ ·)
        ((db.transactions.map monthKey).dedup) :=
      (List.perm_insertionSort _ _).mem_iff.mpr
        (List.mem_dedup.mpr (List.mem_map_of_mem monthKey hr))
    simp only [get_monthly_summary]
    generalize hk : monthKey r = k at hmem ⊢
    exact ⟨_, List.mem_map_of_mem _ hmem, rfl⟩
  · intro e he
    simp only [get_monthly_summary] at he
    rcases List.mem_map.mp he with ⟨m, hm, rfl⟩
    have hmm : m ∈ (db.transactions.map monthKey).dedup :=
      (List.perm_insertionSort _ _).mem_iff.mp hm
    rcases List.mem_map.mp (List.mem_dedup.mp hmm) with ⟨r, hr, hrm⟩
    refine ⟨⟨r, hr, hrm⟩, ?_, ?_⟩
    · rw [sum_map_ite (fun r => r.type = "Income") Txn.amount,
        filter_filter_prop (fun r => monthKey r = m) (fun r => r.type = "Income")]
    · rw [sum_map_ite (fun r => r.type = "Expense") Txn.amount,
        filter_filter_prop (fun r => monthKey r = m) (fun r => r.type = "Expense")]
  · simp only [monthKey]
    rw [String.take_eq, String.take_eq]
    decide

/-- Witness for claim C4: the two January dates of the spec share a bucket
key. -/
theorem get_monthly_summary_spec_witness :
    monthKey ⟨0, "2024-01-15", "Income", "Salary", "", 1⟩ =
      monthKey ⟨1, "2024-01-28", "Expense", "Groceries", "", 1⟩ :=
  (get_monthly_summary_spec emptyDB).2.2.2

end PersonalFinance
